import Mathlib

/-!
Verification of the mpv control-channel core of the Video_player repository.

The definitions below are a shallow embedding of the JavaScript sources:
- `MpvProcess` (mpv-process.js): transport codec `_onData`, request correlator
  `_handleMessage` / `command`, lifecycle `spawn` / `destroy`, observer
  registry `_observeDefaults` / `observeProperty`;
- the IPC bridge (mpv-ipc.js): `cacheSet` and the `mpv:capture-thumbnail`
  handler;
- `HybridThumbnails` (thumbnails.js): `generatePreview`, `_capture`,
  `cancelPending`.

Stateful code is modelled by explicit state passing; externally visible
actions (socket writes, timer arming/clearing, promise settlements, child
process operations) are recorded as lists of effects.
-/

namespace VideoPlayer

/-! ## Transport codec (`MpvProcess._onData`)

`_onData` appends the chunk to `_recvBuf`, splits the buffer on `'\n'`,
keeps the incomplete last line as the new buffer, and for every complete
line that is not blank tries to `JSON.parse` it, silently skipping lines
that fail to parse.  Strings are modelled as `List Char`; the JSON parser
is an arbitrary function `parse : List Char → Option μ` (parse failure =
`none`). -/

/-- Split a character stream on `'\n'`: the first component is the list of
complete lines (separator removed), the second the trailing incomplete
line.  Mirrors `buf.split('\n')` followed by `lines.pop()`. -/
def splitLinesNl : List Char → List (List Char) × List Char
  | [] => ([], [])
  | c :: rest =>
    let r := splitLinesNl rest
    if c = '\n' then ([] :: r.1, r.2)
    else
      match r.1 with
      | [] => ([], c :: r.2)
      | l :: ls => ((c :: l) :: ls, r.2)

/-- A line is blank when `line.trim()` is empty, i.e. every character is
whitespace (`if (!line.trim()) continue;`). -/
def lineBlank (l : List Char) : Bool := l.all Char.isWhitespace

/-- Parse-and-dispatch every complete line: blank lines are skipped, lines
that fail to parse are silently dropped (`catch {}`), the rest are
dispatched in order. -/
def dispatchLines {μ : Type} (parse : List Char → Option μ) (lines : List (List Char)) : List μ :=
  lines.filterMap (fun l => if lineBlank l then none else parse l)

/-- One `_onData` call: append the chunk to the receive buffer, split on
newline, dispatch the complete lines, keep the trailing incomplete line as
the new buffer.  Returns (new buffer, dispatched messages in order). -/
def onData {μ : Type} (parse : List Char → Option μ) (buf chunk : List Char) :
    List Char × List μ :=
  let s := buf ++ chunk
  let r := splitLinesNl s
  (r.2, dispatchLines parse r.1)

/-- Feed a sequence of character chunks one `_onData` call at a time,
accumulating the dispatched messages in order. -/
def onDataAll {μ : Type} (parse : List Char → Option μ) (buf : List Char)
    (chunks : List (List Char)) : List Char × List μ :=
  chunks.foldl (fun acc c =>
    ((onData parse acc.1 c).1, acc.2 ++ (onData parse acc.1 c).2)) (buf, [])

/-- The Unicode replacement character U+FFFD. -/
def replChar : Char := Char.ofNat 0xFFFD

/-- UTF-8 encoding of one character (its scalar value `c.toNat`). -/
def utf8EncodeChar (c : Char) : List Nat :=
  if c.toNat < 0x80 then [c.toNat]
  else if c.toNat < 0x800 then
    [0xC0 + c.toNat / 64, 0x80 + c.toNat % 64]
  else if c.toNat < 0x10000 then
    [0xE0 + c.toNat / 4096, 0x80 + (c.toNat / 64) % 64, 0x80 + c.toNat % 64]
  else
    [0xF0 + c.toNat / 262144, 0x80 + (c.toNat / 4096) % 64,
     0x80 + (c.toNat / 64) % 64, 0x80 + c.toNat % 64]

/-- UTF-8 encoding of a character sequence. -/
def utf8Encode (s : List Char) : List Nat := (s.map utf8EncodeChar).flatten

/-- Begin decoding at byte `b`: either one output character right away
(an ASCII byte, or U+FFFD for a stray continuation byte or an invalid
lead byte), or an open multi-byte sequence carrying its accumulated high
bits and the number of continuation bytes still expected. -/
def utf8Start (b : Nat) : Char ⊕ (Nat × Nat) :=
  if b < 0x80 then Sum.inl (Char.ofNat b)
  else if b < 0xC2 then Sum.inl replChar
  else if b < 0xE0 then Sum.inr (b - 0xC0, 1)
  else if b < 0xF0 then Sum.inr (b - 0xE0, 2)
  else if b < 0xF5 then Sum.inr (b - 0xF0, 3)
  else Sum.inl replChar

/-- The byte-at-a-time UTF-8 decoding loop: `acc`/`need` describe the
open multi-byte sequence (`need = 0`: none); an aborted sequence emits
one U+FFFD and the offending byte is reconsidered as a fresh lead
(WHATWG maximal-subpart replacement); a sequence left open at the end of
the chunk emits one U+FFFD. -/
def utf8Go : Nat → Nat → List Nat → List Char
  | _, 0, [] => []
  | _, _ + 1, [] => [replChar]
  | _, 0, b :: rest =>
    (match utf8Start b with
     | Sum.inl c => c :: utf8Go 0 0 rest
     | Sum.inr (acc, need) => utf8Go acc need rest)
  | acc, need + 1, b :: rest =>
    if 0x80 ≤ b ∧ b < 0xC0 then
      (if need = 0 then Char.ofNat (acc * 64 + (b - 0x80)) :: utf8Go 0 0 rest
       else utf8Go (acc * 64 + (b - 0x80)) need rest)
    else
      replChar ::
        (match utf8Start b with
         | Sum.inl c => c :: utf8Go 0 0 rest
         | Sum.inr (acc2, need2) => utf8Go acc2 need2 rest)

/-- Model of one `chunk.toString('utf-8')` call: Node decodes each chunk
in isolation, carrying no partial-character state to the next chunk, and
turns bytes it cannot decode into U+FFFD.  Exact on valid UTF-8 and on
the shapes a mid-character chunk split produces (a truncated multi-byte
sequence at the end of a chunk becomes one U+FFFD; each stray
continuation byte at the start of a chunk becomes one U+FFFD); overlong
or out-of-range sequences — which cannot arise from splitting valid
UTF-8 — are not specially rejected. -/
def utf8Decode (bs : List Nat) : List Char := utf8Go 0 0 bs

/-- One `_onData` call at the byte level, as the socket delivers it:
`this._recvBuf += chunk.toString('utf-8')` decodes the chunk in
isolation, then the buffer is split on newline (line 299 of the process
manager). -/
def onDataBytes {μ : Type} (parse : List Char → Option μ) (buf : List Char)
    (chunk : List Nat) : List Char × List μ :=
  onData parse buf (utf8Decode chunk)

/-- Feed a sequence of byte chunks one `_onData` call at a time,
accumulating the dispatched messages in order. -/
def onDataBytesAll {μ : Type} (parse : List Char → Option μ) (buf : List Char)
    (chunks : List (List Nat)) : List Char × List μ :=
  chunks.foldl (fun acc c =>
    ((onDataBytes parse acc.1 c).1, acc.2 ++ (onDataBytes parse acc.1 c).2)) (buf, [])

/-! ## Request correlator and lifecycle (`MpvProcess`)

State of one `MpvProcess` instance.  `α` is the type of JSON payloads
(the `data` field of responses).  Timers (`setTimeout` handles) are
natural numbers minted from `nextTimer`; `armedTimers` holds the handles
that are armed and have neither fired nor been cleared.  The `_pending`
map (`request_id → { resolve, reject, timer }`) is an insertion-ordered
association list; promise settlements are recorded as effects. -/

/-- One entry of the `_pending` map: the `timer` handle of its 10 s
timeout (the `resolve`/`reject` callbacks are represented by settlement
effects keyed by the request id). -/
structure PendingEntry where
  timer : Nat
deriving Repr, DecidableEq

/-- One argument of an mpv command frame (`command: [...]`). -/
inductive Arg where
  | str (s : String)
  | nat (n : Nat)
  | bool (b : Bool)
deriving Repr, DecidableEq

/-- Externally visible actions of the engine wrapper. -/
inductive Eff (α : Type) where
  | setTimeout (t : Nat) (ms : Nat)
  | clearTimeout (t : Nat)
  | resolveP (id : Nat) (v : Option α)
  | rejectP (id : Nat) (msg : String)
  | resolveNull
  | write (cmd : List Arg) (requestId : Nat)
  | socketDestroy
  | processKill
  | spawnProcess (bin : String) (args : List String)
  | writeFile (p : String)
  | mkdir (p : String)
  | emit (name : String)
deriving Repr, DecidableEq

/-- State of one `MpvProcess`. -/
structure MpvState (α : Type) where
  processAlive : Bool
  socketPresent : Bool
  ready : Bool
  requestId : Nat
  pending : List (Nat × PendingEntry)
  observedProps : List (Nat × String)
  nextObsId : Nat
  recvBuf : List Char
  filePath : Option String
  pipeName : String
  nextTimer : Nat
  armedTimers : List Nat
deriving Repr, DecidableEq

/-- Lookup in the `_pending` map. -/
def lookupPending (pending : List (Nat × PendingEntry)) (id : Nat) : Option PendingEntry :=
  (pending.find? (fun p => p.1 = id)).map (·.2)

/-- Deletion from the `_pending` map (`this._pending.delete(id)`). -/
def removePending (pending : List (Nat × PendingEntry)) (id : Nat) :
    List (Nat × PendingEntry) :=
  pending.filter (fun p => p.1 ≠ id)

/-- An inbound frame as `_handleMessage` sees it: `request_id` is absent
or a number, `error` is absent or a string, `data` is the payload,
`event` is absent or the event name. -/
structure RespMsg (α : Type) where
  requestId : Option Nat
  error : Option String
  data : Option α
  event : Option String

/-- The error text used on rejection: `msg.error || 'mpv error'` (absent
or empty string falls back to the literal). -/
def errText (e : Option String) : String :=
  match e with
  | some s => if s = "" then "mpv error" else s
  | none => "mpv error"

/-- The event branch of `_handleMessage`: emit `mpv-event` with the raw
message, then re-emit the recognized event kinds. -/
def handleEvent {α : Type} (s : MpvState α) (msg : RespMsg α) :
    MpvState α × List (Eff α) :=
  match msg.event with
  | none => (s, [])
  | some ev =>
    let specific : List (Eff α) :=
      if ev = "log-message" then [Eff.emit "log-message"]
      else if ev = "property-change" then [Eff.emit "property-change"]
      else if ev = "file-loaded" then [Eff.emit "file-loaded"]
      else if ev = "end-file" then [Eff.emit "end-file"]
      else if ev = "seek" then [Eff.emit "seek"]
      else if ev = "playback-restart" then [Eff.emit "playback-restart"]
      else if ev = "client-message" then [Eff.emit "client-message"]
      else []
    (s, Eff.emit "mpv-event" :: specific)

/-- The `_handleMessage` dispatcher.  A frame with a present, positive
`request_id` that matches a pending entry clears that entry's timeout,
removes the entry, and resolves with `data` when `error === 'success'`,
otherwise rejects with the error text; a positive `request_id` with no
matching entry is silently ignored; everything else is an event. -/
def handleMessage {α : Type} (s : MpvState α) (msg : RespMsg α) :
    MpvState α × List (Eff α) :=
  match msg.requestId with
  | some rid =>
    if 0 < rid then
      match lookupPending s.pending rid with
      | some p =>
        ({ s with pending := removePending s.pending rid,
                  armedTimers := s.armedTimers.filter (· ≠ p.timer) },
         [Eff.clearTimeout p.timer,
          if msg.error = some "success" then Eff.resolveP rid msg.data
          else Eff.rejectP rid (errText msg.error)])
      | none => (s, [])
    else handleEvent s msg
  | none => handleEvent s msg

/-- Settlement a response frame produces for the pending request bearing
its id: resolve with `data` on the literal `"success"`, reject with the
error text otherwise. -/
def settlementOf {α : Type} (msg : RespMsg α) (rid : Nat) : Eff α :=
  if msg.error = some "success" then Eff.resolveP rid msg.data
  else Eff.rejectP rid (errText msg.error)

/-- Process a list of response frames in arrival order, accumulating the
effects. -/
def processResponses {α : Type} (s : MpvState α) (msgs : List (RespMsg α)) :
    MpvState α × List (Eff α) :=
  msgs.foldl (fun acc m =>
    ((handleMessage acc.1 m).1, acc.2 ++ (handleMessage acc.1 m).2)) (s, [])

/-- How a `command(...)` call started: either the frame was written at
once (a pending entry with a fresh id and a 10 s timer was registered),
the promise was settled immediately with `null` (socket or readiness
missing inside `send()`), or the call is waiting on a 3000 ms grace
timer for the `ready` event. -/
inductive CmdStart where
  | sent (id : Nat) (timer : Nat)
  | immediateNull
  | waiting (waitTimer : Nat)
deriving Repr, DecidableEq

/-- The `send()` closure inside `command(...)`: resolve `null` when the
socket or the ready flag is missing; otherwise allocate `++this._requestId`,
arm the 10 s timeout, register the pending entry and write the frame. -/
def commandSend {α : Type} (s : MpvState α) (args : List Arg) :
    MpvState α × List (Eff α) × CmdStart :=
  if s.socketPresent ∧ s.ready then
    let id := s.requestId + 1
    let timer := s.nextTimer
    ({ s with requestId := id,
              nextTimer := s.nextTimer + 1,
              armedTimers := s.armedTimers ++ [timer],
              pending := s.pending ++ [(id, ⟨timer⟩)] },
     [Eff.setTimeout timer 10000, Eff.write args id],
     CmdStart.sent id timer)
  else (s, [Eff.resolveNull], CmdStart.immediateNull)

/-- The synchronous part of `command(...args)`: when connected and ready,
run `send()` at once; otherwise arm a 3000 ms wait timer and subscribe to
the `ready` event. -/
def commandCall {α : Type} (s : MpvState α) (args : List Arg) :
    MpvState α × List (Eff α) × CmdStart :=
  if s.socketPresent ∧ s.ready then commandSend s args
  else
    let w := s.nextTimer
    ({ s with nextTimer := s.nextTimer + 1, armedTimers := s.armedTimers ++ [w] },
     [Eff.setTimeout w 3000],
     CmdStart.waiting w)

/-- The grace-window timer of a still-waiting `command` call fires:
the promise resolves with `null` (it is never rejected). -/
def cmdWaitTimeoutFire {α : Type} (s : MpvState α) (w : Nat) :
    MpvState α × List (Eff α) :=
  ({ s with armedTimers := s.armedTimers.filter (· ≠ w) }, [Eff.resolveNull])

/-- The `ready` event arrives while a `command` call is still waiting:
clear the wait timer and run `send()`. -/
def cmdReadyFire {α : Type} (s : MpvState α) (args : List Arg) (w : Nat) :
    MpvState α × List (Eff α) × CmdStart :=
  commandSend { s with armedTimers := s.armedTimers.filter (· ≠ w) } args

/-- The 10 s timeout of the pending request `id` fires (its handle `t`
leaves the armed set): the entry is removed first, then the promise is
rejected with the timeout error. -/
def cmdTimeoutFire {α : Type} (s : MpvState α) (id : Nat) (t : Nat) :
    MpvState α × List (Eff α) :=
  ({ s with pending := removePending s.pending id,
            armedTimers := s.armedTimers.filter (· ≠ t) },
   [Eff.rejectP id "mpv command timed out"])

/-- The `destroy()` method: a best-effort `quit` command (its rejection is
swallowed) followed by destroying the socket when one is present, killing
the process when one is alive, clearing readiness, and then for every
pending entry clearing its timer and rejecting it with `'mpv destroyed'`
before clearing the map. -/
def destroy {α : Type} (s : MpvState α) : MpvState α × List (Eff α) :=
  let sq :=
    if s.socketPresent then
      let r := commandCall s [Arg.str "quit"]
      ({ r.1 with socketPresent := false }, r.2.1 ++ [Eff.socketDestroy])
    else (s, ([] : List (Eff α)))
  let sk :=
    if sq.1.processAlive then
      ({ sq.1 with processAlive := false }, sq.2 ++ [Eff.processKill])
    else sq
  let s3 : MpvState α := { sk.1 with ready := false }
  let rejEffs := s3.pending.flatMap (fun p =>
    [Eff.clearTimeout p.2.timer, Eff.rejectP p.1 "mpv destroyed"])
  ({ s3 with pending := [],
             armedTimers := s3.armedTimers.filter
               (fun t => ¬ s3.pending.any (fun p => p.2.timer = t)) },
   sk.2 ++ rejEffs)

/-- Options accepted by `spawn` (the recognized keys of `opts`). -/
structure SpawnOpts where
  attachWindow : Bool := true
  hwdec : Option String := none
  mpvPath : Option String := none
  ytdlPath : Option String := none
  cookiesPath : Option String := none
  ytdlUserAgent : Option String := none
  enableYtdlRawOptions : Bool := false
  screenshotDir : Option String := none
deriving Repr, DecidableEq

/-- Environment facts `spawn` consults (binary resolution results and
filesystem probes). -/
structure SpawnEnv where
  resolvedMpvBin : String
  resolvedYtDlp : Option String
  defaultCookiesPath : String
  cookiesExists : Bool
  screenshotDirExists : Bool
  defaultScreenshotDir : String
  tmpInputConfPath : String
deriving Repr, DecidableEq

/-- The mpv argument list built by `spawn` (lines 170-223 of the process
manager): fixed baseline flags, the optional yt-dlp script option, the
optional raw ytdl options, then window-attach or headless flags. -/
def buildSpawnArgs (pipeName : String) (hwnd : Option Nat) (opts : SpawnOpts)
    (env : SpawnEnv) : List String :=
  let screenshotDir := opts.screenshotDir.getD env.defaultScreenshotDir
  let cookiesPath := opts.cookiesPath.getD env.defaultCookiesPath
  let defaultUserAgent :=
    "Mozilla/5.0 (Windows NT 10.0; Win64; x64) AppleWebKit/537.36 (KHTML, like Gecko) Chrome/132.0.0.0 Safari/537.36"
  let base :=
    ["--idle=yes", "--keep-open=yes", "--no-terminal", "--no-osc",
     "--no-osd-bar", "--osd-level=0",
     "--input-ipc-server=" ++ pipeName,
     "--hwdec=" ++ opts.hwdec.getD "auto-safe",
     "--vo=gpu", "--ytdl=yes",
     "--sub-auto=fuzzy", "--sub-file-paths=subs:subtitles",
     "--screenshot-directory=" ++ screenshotDir,
     "--screenshot-template=hybrid-player-%tY-%tm-%td-%tH-%tM-%tS",
     "--screenshot-format=png",
     "--no-config", "--input-default-bindings=no",
     "--input-conf=" ++ env.tmpInputConfPath,
     "--cursor-autohide=no"]
  let withYtdl :=
    match env.resolvedYtDlp with
    | some p => base ++ ["--script-opts=ytdl_hook-ytdl_path=" ++ p]
    | none => base
  let withRaw :=
    if opts.enableYtdlRawOptions then
      let raw := ["user-agent=" ++ opts.ytdlUserAgent.getD defaultUserAgent] ++
        (if env.cookiesExists then ["cookies=" ++ cookiesPath] else [])
      withYtdl ++ ["--ytdl-raw-options=" ++ String.intercalate "," raw]
    else withYtdl
  if opts.attachWindow then
    withRaw ++ ["--wid=" ++ toString (hwnd.getD 0)]
  else
    withRaw ++ ["--force-window=no", "--mute=yes", "--pause=yes", "--audio=no"]

/-- The `spawn` method: a no-op when a process handle already exists;
otherwise ensure the screenshot directory, write the input-relay config,
spawn mpv with the built argument list, and arm the 300 ms
connect-socket timer. -/
def spawnMpv {α : Type} (s : MpvState α) (nativeHandle : Option Nat)
    (opts : SpawnOpts) (env : SpawnEnv) : MpvState α × List (Eff α) :=
  if s.processAlive then (s, [])
  else
    let hwnd := if opts.attachWindow then nativeHandle else none
    let mpvBin := opts.mpvPath.getD env.resolvedMpvBin
    let args := buildSpawnArgs s.pipeName hwnd opts env
    ({ s with processAlive := true,
              nextTimer := s.nextTimer + 1,
              armedTimers := s.armedTimers ++ [s.nextTimer] },
     (if env.screenshotDirExists then []
      else [Eff.mkdir (opts.screenshotDir.getD env.defaultScreenshotDir)]) ++
       [Eff.writeFile env.tmpInputConfPath,
        Eff.spawnProcess mpvBin args,
        Eff.setTimeout s.nextTimer 300])

/-- The fixed default property set of `_observeDefaults`. -/
def defaultObservedProps : List String :=
  ["time-pos", "duration", "pause", "volume", "mute", "speed", "eof-reached",
   "track-list", "chapter-list", "chapter", "media-title", "video-params",
   "demuxer-cache-state", "sub-delay", "sub-visibility", "estimated-vf-fps",
   "video-bitrate", "audio-bitrate", "drop-frame-count", "paused-for-cache",
   "seeking"]

/-- The `observeProperty` method: allocate `this._nextObsId++`, record
`id → name` in `_observedProps` (never removed), and send
`observe_property id name`. -/
def observeProperty {α : Type} (s : MpvState α) (name : String) :
    MpvState α × List (Eff α) :=
  let id := s.nextObsId
  let s1 := { s with nextObsId := id + 1,
                     observedProps := s.observedProps ++ [(id, name)] }
  let r := commandCall s1 [Arg.str "observe_property", Arg.nat id, Arg.str name]
  (r.1, r.2.1)

/-- The `_observeDefaults` bootstrap run on `ready`: request debug log
messages, then observe every default property in order. -/
def observeDefaults {α : Type} (s : MpvState α) : MpvState α × List (Eff α) :=
  let r0 := commandCall s [Arg.str "request_log_messages", Arg.str "debug"]
  defaultObservedProps.foldl (fun acc name =>
    ((observeProperty acc.1 name).1, acc.2 ++ (observeProperty acc.1 name).2))
    (r0.1, r0.2.1)

/-! ## Preview cache and `mpv:capture-thumbnail` handler (IPC bridge)

The JS `Map` is modelled as an insertion-ordered association list with
unique keys: `set` on an existing key updates in place (keeping the
original insertion position), `set` on a new key appends, `delete`
removes by key, `get` reads without reordering.  Cache keys are
`(mediaPath, roundedTime)` pairs (the code builds the string
`mediaPath + "|" + rounded`). -/

/-- JS `Map.prototype.set`. -/
def mapSet {κ ν : Type} [DecidableEq κ] (m : List (κ × ν)) (k : κ) (v : ν) :
    List (κ × ν) :=
  if m.any (fun p => p.1 = k) then
    m.map (fun p => if p.1 = k then (k, v) else p)
  else m ++ [(k, v)]

/-- JS `Map.prototype.get`. -/
def mapGet {κ ν : Type} [DecidableEq κ] (m : List (κ × ν)) (k : κ) : Option ν :=
  (m.find? (fun p => p.1 = k)).map (·.2)

/-- JS `Map.prototype.delete`. -/
def mapDelete {κ ν : Type} [DecidableEq κ] (m : List (κ × ν)) (k : κ) :
    List (κ × ν) :=
  m.filter (fun p => p.1 ≠ k)

/-- The bridge's `cacheSet`: insert, then if the size exceeds 180 delete
the first key in insertion order (`previewCache.keys().next().value`). -/
def cacheSet {κ ν : Type} [DecidableEq κ] (m : List (κ × ν)) (k : κ) (v : ν) :
    List (κ × ν) :=
  let m1 := mapSet m k v
  if 180 < m1.length then
    match m1.head? with
    | some oldest => mapDelete m1 oldest.1
    | none => m1
  else m1

/-- A cached preview payload `{ dataUrl, time }`; `ν` is the type of the
base64 data URL. -/
structure CachePayload (ν : Type) where
  dataUrl : ν
  time : ℚ
deriving Repr, DecidableEq

/-- Mutable state of the preview pipeline in the bridge: the cache and
the path currently loaded in the capture engine. -/
structure PreviewState (ν : Type) where
  cache : List ((String × ℚ) × CachePayload ν)
  loadedPath : Option String
deriving Repr, DecidableEq

/-- Commands the capture-thumbnail handler issues to the preview engine. -/
inductive PrevEff where
  | ensureProcess
  | loadFile (p : String)
  | pauseCmd
  | seekExact (t : ℚ)
  | screenshotToFile (key : String × ℚ)
  | readFile (key : String × ℚ)
deriving Repr, DecidableEq

/-- Environment facts the handler consults for one capture. -/
structure CaptureEnv (ν : Type) where
  thumbFileExists : Bool
  fileDataUrl : ν
deriving Repr, DecidableEq

/-- JS `Math.round` on a non-negative rational (half-up), then divide by
two: `Math.round(safeTime * 2) / 2`. -/
def roundHalf (t : ℚ) : ℚ := ((⌊t * 2 + 1 / 2⌋ : ℤ) : ℚ) / 2

/-- The `mpv:capture-thumbnail` handler body (after `withReady`): return
`none` when no media is loaded; otherwise round the time to the nearest
0.5 s, return the cached payload on a cache hit, and otherwise run the
queued capture task: ensure the preview process, load the media if it
differs from the one loaded, seek exactly, screenshot to file only when
the file does not already exist, read and cache the payload. -/
def captureThumbnail {ν : Type} [DecidableEq ν] (env : CaptureEnv ν)
    (mediaPath : Option String) (t : ℚ) (st : PreviewState ν) :
    PreviewState ν × List PrevEff × Option (CachePayload ν) :=
  match mediaPath with
  | none => (st, [], none)
  | some mp =>
    let safeTime := max 0 t
    let rounded := roundHalf safeTime
    let key := (mp, rounded)
    match mapGet st.cache key with
    | some cached => (st, [], some cached)
    | none =>
      match mapGet st.cache key with
      | some queuedCached => (st, [], some queuedCached)
      | none =>
        let loadEffs :=
          if st.loadedPath = some mp then ([] : List PrevEff)
          else [PrevEff.loadFile mp, PrevEff.pauseCmd]
        let st1 := { st with loadedPath := some mp }
        let shotEffs :=
          if env.thumbFileExists then ([] : List PrevEff)
          else [PrevEff.screenshotToFile key]
        let payload : CachePayload ν := ⟨env.fileDataUrl, rounded⟩
        ({ st1 with cache := cacheSet st1.cache key payload },
         [PrevEff.ensureProcess] ++ loadEffs ++ [PrevEff.seekExact rounded] ++
           shotEffs ++ [PrevEff.readFile key],
         some payload)

/-! ## Renderer thumbnails module (`HybridThumbnails`)

`generatePreview` / `_capture` / `cancelPending` modelled as a state
machine; the async completion of the awaited `captureThumbnail` call is
the `captureComplete` transition.  The second component of
`captureComplete` is `some t` exactly when the caller's callback ran
(the hover image was updated for time `t`). -/

structure ThumbState where
  hasImgEl : Bool
  playerDuration : ℚ
  debounce : Option (ℚ × Nat)
  lastRequestedTime : ℚ
  pending : Bool
  requestToken : Nat
  queuedCapture : Option (ℚ × Nat)
  inFlight : Option (ℚ × Nat)
deriving Repr, DecidableEq

/-- A fresh `HybridThumbnails` (constructor state);
`_lastRequestedTime = -1`. -/
def ThumbState.init (hasImg : Bool) (dur : ℚ) : ThumbState :=
  ⟨hasImg, dur, none, -1, false, 0, none, none⟩

/-- The `generatePreview(time)` entry point: bail out when the image
element or the duration is missing; drop the request when the time is
within 0.25 s of the last requested time; otherwise record the time,
mint `++this._requestToken` and (re)arm the 120 ms debounce timer with
the new `(time, token)`. -/
def generatePreview (s : ThumbState) (time : ℚ) : ThumbState :=
  if ¬s.hasImgEl ∨ s.playerDuration = 0 then s
  else if |time - s.lastRequestedTime| < 1 / 4 then s
  else
    { s with lastRequestedTime := time,
             requestToken := s.requestToken + 1,
             debounce := some (time, s.requestToken + 1) }

/-- The synchronous entry of `_capture(time, token)`: when a capture is
already in flight the request is stored as the single queued capture;
otherwise it becomes the in-flight capture. -/
def captureEnter (s : ThumbState) (time : ℚ) (token : Nat) : ThumbState :=
  if s.pending then { s with queuedCapture := some (time, token) }
  else { s with pending := true, inFlight := some (time, token) }

/-- The debounce timer fires: run `_capture` with the armed
`(time, token)`. -/
def debounceFire (s : ThumbState) : ThumbState :=
  match s.debounce with
  | none => s
  | some (t, tok) => captureEnter { s with debounce := none } t tok

/-- The awaited capture completes (`hasDataUrl` says whether the result
carried a data URL).  The result is applied only when the capture's token
still equals `this._requestToken`; the `finally` block clears the
pending flag and drains the queued capture when its token is still the
latest. -/
def captureComplete (s : ThumbState) (hasDataUrl : Bool) :
    ThumbState × Option ℚ :=
  match s.inFlight with
  | none => (s, none)
  | some (t, tok) =>
    let deliver : Option ℚ :=
      if tok ≠ s.requestToken then none
      else if hasDataUrl then some t else none
    let s1 := { s with pending := false, inFlight := none }
    match s1.queuedCapture with
    | none => (s1, deliver)
    | some q =>
      let s2 := { s1 with queuedCapture := none }
      if q.2 = s2.requestToken then (captureEnter s2 q.1 q.2, deliver)
      else (s2, deliver)

/-- The `cancelPending()` method: bump the token, drop the queued
capture, clear the debounce timer. -/
def cancelPending (s : ThumbState) : ThumbState :=
  { s with requestToken := s.requestToken + 1,
           queuedCapture := none,
           debounce := none }

/-! ## Sample values used by witnesses -/

/-- A concrete running instance: connected, ready, two in-flight requests
with ids 3 and 4 whose timeout timers 100 and 101 are armed. -/
def sampleState : MpvState Nat :=
  { processAlive := true, socketPresent := true, ready := true, requestId := 5,
    pending := [(3, ⟨100⟩), (4, ⟨101⟩)], observedProps := [], nextObsId := 1,
    recvBuf := [], filePath := none, pipeName := "\\\\.\\pipe\\hybrid-mpv-ipc-1-1",
    nextTimer := 102, armedTimers := [100, 101] }

/-- A concrete not-yet-connected instance. -/
def sampleNotReady : MpvState Nat :=
  { sampleState with socketPresent := false, ready := false,
                     pending := [], armedTimers := [] }

def sampleOpts : SpawnOpts := {}

def sampleEnv : SpawnEnv :=
  { resolvedMpvBin := "mpv", resolvedYtDlp := none,
    defaultCookiesPath := "cookies.txt", cookiesExists := false,
    screenshotDirExists := true, defaultScreenshotDir := "screenshots",
    tmpInputConfPath := "hybrid-player-input-1.conf" }

/-- A concrete thumbnails state: image element present, media 100 s long,
last requested time 5 s, token 2 minted, a capture in flight for token
2. -/
def sampleThumb : ThumbState :=
  { hasImgEl := true, playerDuration := 100, debounce := none,
    lastRequestedTime := 5, pending := true, requestToken := 2,
    queuedCapture := none, inFlight := some (4, 2) }

/-- A success response for request 3 of `sampleState`. -/
def sampleMsg3 : RespMsg Nat := ⟨some 3, some "success", some 42, none⟩

/-- A failure response for request 4 of `sampleState`. -/
def sampleMsg4 : RespMsg Nat := ⟨some 4, some "property unavailable", none, none⟩

/-- One concrete cached thumbnail payload. -/
def sampleCache : List ((String × ℚ) × CachePayload Nat) :=
  [(("a.mkv", 3 / 2), ⟨9000, 3 / 2⟩)]

/-- The id/name pairs a run of sequential observations starting at id `n`
registers. -/
def seqObs : Nat → List String → List (Nat × String)
  | _, [] => []
  | n, name :: rest => (n, name) :: seqObs (n + 1) rest

/-- A fresh, just-connected instance: the state in which the `ready`
event triggers the default-observation bootstrap. -/
def sampleFresh : MpvState Nat :=
  { processAlive := true, socketPresent := true, ready := true, requestId := 0,
    pending := [], observedProps := [], nextObsId := 1, recvBuf := [],
    filePath := none, pipeName := "\\\\.\\pipe\\hybrid-mpv-ipc-1-2",
    nextTimer := 0, armedTimers := [] }

/-- A toy line parser standing in for `JSON.parse`: lines starting with
`x` fail to parse, every other line parses to itself. -/
def toyParse (l : List Char) : Option (List Char) :=
  if l.head? = some 'x' then none else some l

/-- A chunk sequence that splits one line across two chunks and contains
one unparseable line. -/
def sampleChunks : List (List Char) :=
  [['a', 'b'], ['c', '\n', 'x'], ['y', '\n', 'd']]

/-- The bytes of a line holding the character U+00E9 (two-byte UTF-8
`0xC3 0xA9`) plus a newline, split at a byte offset inside that
character. -/
def sampleByteChunks : List (List Nat) := [[0x61, 0xC3], [0xA9, 0x0A]]

/-! ## Transport codec lemmas and C2: chunking equivalence -/

theorem splitLinesNl_cons_nl (rest : List Char) :
    splitLinesNl ('\n' :: rest) = ([] :: (splitLinesNl rest).1, (splitLinesNl rest).2) := by
  simp [splitLinesNl]

theorem splitLinesNl_cons_head_nil {c : Char} (hc : c ≠ '\n') {rest : List Char}
    (hr : (splitLinesNl rest).1 = []) :
    splitLinesNl (c :: rest) = ([], c :: (splitLinesNl rest).2) := by
  simp only [splitLinesNl, if_neg hc]
  rw [hr]

theorem splitLinesNl_cons_head_cons {c : Char} (hc : c ≠ '\n') {rest : List Char}
    {l : List Char} {ls : List (List Char)} (hr : (splitLinesNl rest).1 = l :: ls) :
    splitLinesNl (c :: rest) = ((c :: l) :: ls, (splitLinesNl rest).2) := by
  simp only [splitLinesNl, if_neg hc]
  rw [hr]

theorem splitLinesNl_fst_nil {a : List Char} (h : (splitLinesNl a).1 = []) :
    (splitLinesNl a).2 = a := by
  induction a with
  | nil => rfl
  | cons c rest ih =>
    by_cases hc : c = '\n'
    · subst hc; rw [splitLinesNl_cons_nl] at h; simp at h
    · cases hr : (splitLinesNl rest).1 with
      | nil => rw [splitLinesNl_cons_head_nil hc hr]; simp [ih hr]
      | cons l ls => rw [splitLinesNl_cons_head_cons hc hr] at h; simp at h

theorem splitLinesNl_append (a b : List Char) :
    splitLinesNl (a ++ b) =
      ((splitLinesNl a).1 ++ (splitLinesNl ((splitLinesNl a).2 ++ b)).1,
       (splitLinesNl ((splitLinesNl a).2 ++ b)).2) := by
  induction a with
  | nil => simp [splitLinesNl]
  | cons c rest ih =>
    by_cases hc : c = '\n'
    · subst hc
      rw [List.cons_append, splitLinesNl_cons_nl, splitLinesNl_cons_nl, ih]
      simp
    · cases hr : (splitLinesNl rest).1 with
      | nil =>
        have h2 := splitLinesNl_fst_nil hr
        rw [List.cons_append, splitLinesNl_cons_head_nil hc hr, h2]
        simp [List.cons_append]
      | cons l ls =>
        have hfst : (splitLinesNl (rest ++ b)).1 =
            l :: (ls ++ (splitLinesNl ((splitLinesNl rest).2 ++ b)).1) := by
          rw [ih, hr]; simp
        have hsnd : (splitLinesNl (rest ++ b)).2 =
            (splitLinesNl ((splitLinesNl rest).2 ++ b)).2 := by
          rw [ih]
        rw [List.cons_append, splitLinesNl_cons_head_cons hc hfst,
          splitLinesNl_cons_head_cons hc hr, hsnd]
        simp

theorem splitLinesNl_snd_no_nl (s : List Char) : '\n' ∉ (splitLinesNl s).2 := by
  induction s with
  | nil => simp [splitLinesNl]
  | cons c rest ih =>
    by_cases hc : c = '\n'
    · subst hc; rw [splitLinesNl_cons_nl]; exact ih
    · cases hr : (splitLinesNl rest).1 with
      | nil =>
        rw [splitLinesNl_cons_head_nil hc hr]
        simp only [List.mem_cons, not_or]
        exact ⟨fun h => hc h.symm, ih⟩
      | cons l ls => rw [splitLinesNl_cons_head_cons hc hr]; exact ih

theorem splitLinesNl_no_nl {s : List Char} (h : '\n' ∉ s) : splitLinesNl s = ([], s) := by
  induction s with
  | nil => rfl
  | cons c rest ih =>
    simp only [List.mem_cons, not_or] at h
    have hc : c ≠ '\n' := fun hx => h.1 hx.symm
    have hr : (splitLinesNl rest).1 = [] := by rw [ih h.2]
    rw [splitLinesNl_cons_head_nil hc hr, ih h.2]

theorem dispatchLines_append {μ : Type} (parse : List Char → Option μ)
    (a b : List (List Char)) :
    dispatchLines parse (a ++ b) = dispatchLines parse a ++ dispatchLines parse b := by
  simp [dispatchLines]

theorem onData_append {μ : Type} (parse : List Char → Option μ) (buf c1 c2 : List Char) :
    onData parse buf (c1 ++ c2) =
      ((onData parse (onData parse buf c1).1 c2).1,
       (onData parse buf c1).2 ++ (onData parse (onData parse buf c1).1 c2).2) := by
  simp only [onData, ← List.append_assoc]
  rw [splitLinesNl_append (buf ++ c1) c2, dispatchLines_append]

theorem onDataAll_acc {μ : Type} (parse : List Char → Option μ)
    (chunks : List (List Char)) (b : List Char) (m : List μ) :
    chunks.foldl (fun acc c =>
        ((onData parse acc.1 c).1, acc.2 ++ (onData parse acc.1 c).2)) (b, m) =
      ((chunks.foldl (fun acc c =>
          ((onData parse acc.1 c).1, acc.2 ++ (onData parse acc.1 c).2)) (b, [])).1,
       m ++ (chunks.foldl (fun acc c =>
          ((onData parse acc.1 c).1, acc.2 ++ (onData parse acc.1 c).2)) (b, [])).2) := by
  induction chunks generalizing b m with
  | nil => simp
  | cons c cs ih =>
    simp only [List.foldl_cons, List.nil_append]
    rw [ih (onData parse b c).1 (m ++ (onData parse b c).2),
      ih (onData parse b c).1 (onData parse b c).2]
    simp

theorem onDataAll_cons {μ : Type} (parse : List Char → Option μ)
    (buf c : List Char) (cs : List (List Char)) :
    onDataAll parse buf (c :: cs) =
      ((onDataAll parse (onData parse buf c).1 cs).1,
       (onData parse buf c).2 ++ (onDataAll parse (onData parse buf c).1 cs).2) := by
  simp only [onDataAll, List.foldl_cons, List.nil_append]
  exact onDataAll_acc parse cs (onData parse buf c).1 (onData parse buf c).2

theorem onData_nil_buf_no_nl {μ : Type} (parse : List Char → Option μ)
    {buf : List Char} (h : '\n' ∉ buf) :
    onData parse buf [] = (buf, []) := by
  simp [onData, splitLinesNl_no_nl h, dispatchLines]

/-- Character-level core of the chunking equivalence: feeding character
chunks one at a time dispatches exactly the messages (in the same
order), and leaves exactly the buffer, that feeding their concatenation
as one chunk would, for every starting buffer that holds no newline (the
receive buffer is always the trailing incomplete line, so it never holds
one); and a line that fails to parse is silently skipped without
affecting the lines before or after it. -/
theorem onData_chunking_equiv {μ : Type} (parse : List Char → Option μ)
    (buf : List Char) (chunks : List (List Char)) (h : '\n' ∉ buf) :
    onDataAll parse buf chunks = onData parse buf chunks.flatten ∧
      (∀ (bad : List Char) (ls1 ls2 : List (List Char)), parse bad = none →
        dispatchLines parse (ls1 ++ bad :: ls2) =
          dispatchLines parse ls1 ++ dispatchLines parse ls2) := by
  constructor
  · induction chunks generalizing buf with
    | nil =>
      simp only [List.flatten_nil]
      rw [onData_nil_buf_no_nl parse h]
      rfl
    | cons c cs ih =>
      rw [onDataAll_cons, List.flatten_cons, onData_append,
        ih (onData parse buf c).1 (splitLinesNl_snd_no_nl (buf ++ c))]
  · intro bad ls1 ls2 hbad
    simp only [dispatchLines, List.filterMap_append, List.filterMap_cons]
    cases hb : lineBlank bad <;> simp [hb, hbad]

/-! ## C9: spawn is idempotent under an existing process handle -/

/-- C9: calling `spawn` while a process handle already exists returns
without spawning, without building arguments or writing the input-relay
config, and without modifying any instance state. -/
theorem spawn_noop_when_process_exists {α : Type} (s : MpvState α)
    (nativeHandle : Option Nat) (opts : SpawnOpts) (env : SpawnEnv)
    (h : s.processAlive = true) :
    spawnMpv s nativeHandle opts env = (s, []) := by
  simp [spawnMpv, h]

theorem spawn_noop_when_process_exists_witness :
    sampleState.processAlive = true ∧
      spawnMpv sampleState (some 77) sampleOpts sampleEnv = (sampleState, []) :=
  ⟨rfl, spawn_noop_when_process_exists sampleState (some 77) sampleOpts sampleEnv rfl⟩

/-! ## C8: generatePreview drops near-duplicate times -/

theorem generatePreview_close_noop (s : ThumbState) (t : ℚ)
    (h : |t - s.lastRequestedTime| < 1 / 4) : generatePreview s t = s := by
  by_cases hg : ¬s.hasImgEl ∨ s.playerDuration = 0
  · unfold generatePreview; rw [if_pos hg]
  · unfold generatePreview; rw [if_neg hg, if_pos h]

/-- C8: a `generatePreview(time)` call with `|time − lastRequestedTime| <
0.25` is dropped with the state fully unchanged (no time update, no new
token, no debounce re-arm, hence no capture), and a second call within
0.25 s of a first minting call is likewise a no-op, so the two calls arm
at most the single debounce slot of the first. -/
theorem generatePreview_drops_close_times (s : ThumbState) (t : ℚ)
    (h : |t - s.lastRequestedTime| < 1 / 4) :
    generatePreview s t = s ∧
    (∀ t1 t2 : ℚ, s.hasImgEl = true → s.playerDuration ≠ 0 →
      ¬ |t1 - s.lastRequestedTime| < 1 / 4 → |t2 - t1| < 1 / 4 →
      generatePreview (generatePreview s t1) t2 = generatePreview s t1 ∧
        (generatePreview s t1).debounce = some (t1, s.requestToken + 1)) := by
  refine ⟨generatePreview_close_noop s t h, ?_⟩
  intro t1 t2 himg hdur h1 h2
  have hg : ¬(¬s.hasImgEl ∨ s.playerDuration = 0) := by
    rw [himg]; simp [hdur]
  have hs1 : generatePreview s t1 =
      { s with lastRequestedTime := t1,
               requestToken := s.requestToken + 1,
               debounce := some (t1, s.requestToken + 1) } := by
    unfold generatePreview
    rw [if_neg hg, if_neg h1]
  have hlast : (generatePreview s t1).lastRequestedTime = t1 := by rw [hs1]
  refine ⟨?_, by rw [hs1]⟩
  exact generatePreview_close_noop _ t2 (by rw [hlast]; exact h2)

theorem generatePreview_drops_close_times_witness :
    |(51 / 10 : ℚ) - sampleThumb.lastRequestedTime| < 1 / 4 ∧
      (generatePreview sampleThumb (51 / 10) = sampleThumb ∧
        (∀ t1 t2 : ℚ, sampleThumb.hasImgEl = true → sampleThumb.playerDuration ≠ 0 →
          ¬ |t1 - sampleThumb.lastRequestedTime| < 1 / 4 → |t2 - t1| < 1 / 4 →
          generatePreview (generatePreview sampleThumb t1) t2 =
              generatePreview sampleThumb t1 ∧
            (generatePreview sampleThumb t1).debounce =
              some (t1, sampleThumb.requestToken + 1))) :=
  ⟨by norm_num [sampleThumb, abs_lt],
   generatePreview_drops_close_times sampleThumb (51 / 10) (by norm_num [sampleThumb, abs_lt])⟩

/-! ## C5: stale capture results are discarded -/

theorem captureComplete_snd (s : ThumbState) (t : ℚ) (tok : Nat) (hasData : Bool)
    (hin : s.inFlight = some (t, tok)) :
    (captureComplete s hasData).2 =
      if tok ≠ s.requestToken then none
      else if hasData then some t else none := by
  cases hq : s.queuedCapture with
  | none => simp [captureComplete, hin, hq]
  | some q =>
    by_cases hqt : q.2 = s.requestToken
    · simp [captureComplete, hin, hq, hqt]
    · simp [captureComplete, hin, hq, hqt]

/-- C5: a capture completion observed when its token is no longer the
current `_requestToken` delivers nothing; `cancelPending()` clears the
debounce timer and the queued capture and bumps the token without
touching the in-flight capture, so a completion after `cancelPending()`
— or after any newer `generatePreview` call that minted a newer token —
never invokes the caller's callback. -/
theorem stale_token_discard (s : ThumbState) (t : ℚ) (tok : Nat) (hasData : Bool)
    (hin : s.inFlight = some (t, tok)) (htok : tok ≤ s.requestToken) :
    (tok ≠ s.requestToken → (captureComplete s hasData).2 = none) ∧
    (cancelPending s).debounce = none ∧
    (cancelPending s).queuedCapture = none ∧
    (cancelPending s).pending = s.pending ∧
    (cancelPending s).inFlight = s.inFlight ∧
    (captureComplete (cancelPending s) hasData).2 = none ∧
    (∀ u : ℚ, s.hasImgEl = true → s.playerDuration ≠ 0 →
      ¬ |u - s.lastRequestedTime| < 1 / 4 →
      (captureComplete (generatePreview s u) hasData).2 = none) := by
  refine ⟨?_, rfl, rfl, rfl, rfl, ?_, ?_⟩
  · intro hne
    rw [captureComplete_snd s t tok hasData hin, if_pos hne]
  · have hne : tok ≠ (cancelPending s).requestToken := by
      show tok ≠ s.requestToken + 1
      omega
    rw [captureComplete_snd (cancelPending s) t tok hasData hin, if_pos hne]
  · intro u himg hdur hfar
    have hg : ¬(¬s.hasImgEl ∨ s.playerDuration = 0) := by
      rw [himg]; simp [hdur]
    have hs1 : generatePreview s u =
        { s with lastRequestedTime := u,
                 requestToken := s.requestToken + 1,
                 debounce := some (u, s.requestToken + 1) } := by
      unfold generatePreview
      rw [if_neg hg, if_neg hfar]
    have hin1 : (generatePreview s u).inFlight = some (t, tok) := by
      rw [hs1]; exact hin
    have hne : tok ≠ (generatePreview s u).requestToken := by
      rw [hs1]; show tok ≠ s.requestToken + 1; omega
    rw [captureComplete_snd (generatePreview s u) t tok hasData hin1, if_pos hne]

theorem stale_token_discard_witness :
    sampleThumb.inFlight = some (4, 2) ∧ 2 ≤ sampleThumb.requestToken ∧
      ((2 ≠ sampleThumb.requestToken → (captureComplete sampleThumb true).2 = none) ∧
        (cancelPending sampleThumb).debounce = none ∧
        (cancelPending sampleThumb).queuedCapture = none ∧
        (cancelPending sampleThumb).pending = sampleThumb.pending ∧
        (cancelPending sampleThumb).inFlight = sampleThumb.inFlight ∧
        (captureComplete (cancelPending sampleThumb) true).2 = none ∧
        (∀ u : ℚ, sampleThumb.hasImgEl = true → sampleThumb.playerDuration ≠ 0 →
          ¬ |u - sampleThumb.lastRequestedTime| < 1 / 4 →
          (captureComplete (generatePreview sampleThumb u) true).2 = none)) :=
  ⟨rfl, by norm_num [sampleThumb],
   stale_token_discard sampleThumb 4 2 true rfl (by norm_num [sampleThumb])⟩

/-! ## C7: commands on a not-yet-connected instance are best-effort -/

/-- C7: a `command` call made while the socket is absent or the ready
flag is clear registers no pending entry and only arms a 3000 ms grace
timer while waiting for `ready`; if that timer fires first the promise
resolves with `null` (it is never rejected), and if `ready` arrives first
(socket present and ready) the frame is transmitted with a fresh id. -/
theorem command_not_ready_grace_window {α : Type} (s : MpvState α) (args : List Arg)
    (h : ¬(s.socketPresent = true ∧ s.ready = true)) :
    commandCall s args =
      ({ s with nextTimer := s.nextTimer + 1,
                armedTimers := s.armedTimers ++ [s.nextTimer] },
       [Eff.setTimeout s.nextTimer 3000], CmdStart.waiting s.nextTimer) ∧
    (commandCall s args).1.pending = s.pending ∧
    (∀ (s2 : MpvState α) (w : Nat), cmdWaitTimeoutFire s2 w =
      ({ s2 with armedTimers := s2.armedTimers.filter (· ≠ w) }, [Eff.resolveNull])) ∧
    (∀ (s2 : MpvState α) (w : Nat), s2.socketPresent = true → s2.ready = true →
      (cmdReadyFire s2 args w).2.2 = CmdStart.sent (s2.requestId + 1) s2.nextTimer ∧
        Eff.write args (s2.requestId + 1) ∈ (cmdReadyFire s2 args w).2.1) := by
  have hcc : commandCall s args =
      ({ s with nextTimer := s.nextTimer + 1,
                armedTimers := s.armedTimers ++ [s.nextTimer] },
       [Eff.setTimeout s.nextTimer 3000], CmdStart.waiting s.nextTimer) := by
    unfold commandCall
    rw [if_neg (by simpa using h)]
  refine ⟨hcc, by rw [hcc], fun s2 w => rfl, ?_⟩
  intro s2 w hs2 hr2
  unfold cmdReadyFire commandSend
  rw [if_pos (by simp [hs2, hr2])]
  exact ⟨rfl, by simp⟩

theorem command_not_ready_grace_window_witness :
    ¬(sampleNotReady.socketPresent = true ∧ sampleNotReady.ready = true) ∧
      (commandCall sampleNotReady [Arg.str "stop"] =
        ({ sampleNotReady with nextTimer := sampleNotReady.nextTimer + 1,
                               armedTimers := sampleNotReady.armedTimers ++ [sampleNotReady.nextTimer] },
         [Eff.setTimeout sampleNotReady.nextTimer 3000], CmdStart.waiting sampleNotReady.nextTimer) ∧
       (commandCall sampleNotReady [Arg.str "stop"]).1.pending = sampleNotReady.pending ∧
       (∀ (s2 : MpvState Nat) (w : Nat), cmdWaitTimeoutFire s2 w =
         ({ s2 with armedTimers := s2.armedTimers.filter (· ≠ w) }, [Eff.resolveNull])) ∧
       (∀ (s2 : MpvState Nat) (w : Nat), s2.socketPresent = true → s2.ready = true →
         (cmdReadyFire s2 [Arg.str "stop"] w).2.2 =
             CmdStart.sent (s2.requestId + 1) s2.nextTimer ∧
           Eff.write [Arg.str "stop"] (s2.requestId + 1) ∈ (cmdReadyFire s2 [Arg.str "stop"] w).2.1)) :=
  ⟨by simp [sampleNotReady, sampleState],
   command_not_ready_grace_window sampleNotReady [Arg.str "stop"]
     (by simp [sampleNotReady, sampleState])⟩

/-! ## Pending-map lemmas -/

theorem lookupPending_cons (p : Nat × PendingEntry) (ps : List (Nat × PendingEntry))
    (j : Nat) :
    lookupPending (p :: ps) j = if p.1 = j then some p.2 else lookupPending ps j := by
  unfold lookupPending
  rw [List.find?_cons]
  by_cases hp : p.1 = j
  · simp [hp]
  · simp [hp]

theorem removePending_cons (p : Nat × PendingEntry) (ps : List (Nat × PendingEntry))
    (id : Nat) :
    removePending (p :: ps) id =
      if p.1 = id then removePending ps id else p :: removePending ps id := by
  unfold removePending
  rw [List.filter_cons]
  by_cases hp : p.1 = id <;> simp [hp]

theorem lookupPending_remove_self (pending : List (Nat × PendingEntry)) (id : Nat) :
    lookupPending (removePending pending id) id = none := by
  induction pending with
  | nil => rfl
  | cons p ps ih =>
    rw [removePending_cons]
    by_cases hp : p.1 = id
    · rw [if_pos hp]; exact ih
    · rw [if_neg hp, lookupPending_cons, if_neg hp]; exact ih

theorem lookupPending_remove_ne (pending : List (Nat × PendingEntry)) (id j : Nat)
    (hj : j ≠ id) :
    lookupPending (removePending pending id) j = lookupPending pending j := by
  induction pending with
  | nil => rfl
  | cons p ps ih =>
    rw [removePending_cons, lookupPending_cons]
    by_cases hp : p.1 = id
    · rw [if_pos hp, if_neg (by rw [hp]; exact fun hh => hj hh.symm)]
      exact ih
    · rw [if_neg hp, lookupPending_cons]
      by_cases hpj : p.1 = j
      · rw [if_pos hpj, if_pos hpj]
      · rw [if_neg hpj, if_neg hpj]; exact ih

theorem handleMessage_match {α : Type} (s : MpvState α) (msg : RespMsg α)
    (rid : Nat) (p : PendingEntry)
    (hmsg : msg.requestId = some rid) (hpos : 0 < rid)
    (hlook : lookupPending s.pending rid = some p) :
    handleMessage s msg =
      ({ s with pending := removePending s.pending rid,
                armedTimers := s.armedTimers.filter (· ≠ p.timer) },
       [Eff.clearTimeout p.timer, settlementOf msg rid]) := by
  unfold handleMessage
  simp only [hmsg]
  rw [if_pos hpos]
  simp only [hlook]
  rfl

theorem handleMessage_unmatched {α : Type} (s : MpvState α) (msg : RespMsg α)
    (rid : Nat) (hmsg : msg.requestId = some rid) (hpos : 0 < rid)
    (hlook : lookupPending s.pending rid = none) :
    handleMessage s msg = (s, []) := by
  unfold handleMessage
  simp only [hmsg]
  rw [if_pos hpos]
  simp only [hlook]

theorem processResponses_acc {α : Type} (msgs : List (RespMsg α)) (s : MpvState α)
    (e : List (Eff α)) :
    msgs.foldl (fun acc m =>
        ((handleMessage acc.1 m).1, acc.2 ++ (handleMessage acc.1 m).2)) (s, e) =
      ((processResponses s msgs).1, e ++ (processResponses s msgs).2) := by
  induction msgs generalizing s e with
  | nil => simp [processResponses]
  | cons m ms ih =>
    simp only [processResponses, List.foldl_cons, List.nil_append] at ih ⊢
    rw [ih (handleMessage s m).1 (e ++ (handleMessage s m).2),
      ih (handleMessage s m).1 (handleMessage s m).2]
    simp

theorem processResponses_cons {α : Type} (s : MpvState α) (m : RespMsg α)
    (ms : List (RespMsg α)) :
    processResponses s (m :: ms) =
      ((processResponses (handleMessage s m).1 ms).1,
       (handleMessage s m).2 ++ (processResponses (handleMessage s m).1 ms).2) := by
  simp only [processResponses, List.foldl_cons, List.nil_append]
  exact processResponses_acc ms (handleMessage s m).1 (handleMessage s m).2

theorem processResponses_each_settled {α : Type} (s : MpvState α)
    (pairs : List (RespMsg α × Nat))
    (hids : (pairs.map (·.2)).Nodup)
    (hok : ∀ q ∈ pairs, q.1.requestId = some q.2 ∧ 0 < q.2 ∧
      (lookupPending s.pending q.2).isSome = true) :
    ∀ q ∈ pairs, settlementOf q.1 q.2 ∈ (processResponses s (pairs.map (·.1))).2 := by
  induction pairs generalizing s with
  | nil => intro q hq; exact absurd hq (List.not_mem_nil q)
  | cons q0 qs ih =>
    obtain ⟨hm0, hp0, hl0⟩ := hok q0 (List.mem_cons_self q0 qs)
    obtain ⟨p, hp⟩ := Option.isSome_iff_exists.mp hl0
    have hstep := handleMessage_match s q0.1 q0.2 p hm0 hp0 hp
    have hnotin : q0.2 ∉ qs.map (·.2) := by
      simp only [List.map_cons, List.nodup_cons] at hids
      exact hids.1
    have hqs : ∀ q ∈ qs, q.1.requestId = some q.2 ∧ 0 < q.2 ∧
        (lookupPending (handleMessage s q0.1).1.pending q.2).isSome = true := by
      intro q hq
      obtain ⟨hm, hpq, hl⟩ := hok q (List.mem_cons_of_mem q0 hq)
      refine ⟨hm, hpq, ?_⟩
      have hne : q.2 ≠ q0.2 := by
        intro he
        exact hnotin (he ▸ List.mem_map_of_mem (·.2) hq)
      rw [hstep]
      simpa [lookupPending_remove_ne s.pending q0.2 q.2 hne] using hl
    have hnodup : (qs.map (·.2)).Nodup := by
      simp only [List.map_cons, List.nodup_cons] at hids
      exact hids.2
    intro q hq
    rw [List.map_cons, processResponses_cons]
    rcases List.mem_cons.mp hq with hq0 | hqmem
    · subst hq0
      apply List.mem_append_left
      rw [hstep]
      simp
    · apply List.mem_append_right
      exact ih (handleMessage s q0.1).1 hnodup hqs q hqmem

/-! ## C1: responses settle exactly the pending request bearing their id -/

/-- C1: a response frame with a positive `request_id` matching a pending
entry clears that entry's timeout, removes exactly that entry (every
other id's entry is untouched), resolves with the frame's `data` when the
frame's error field is the literal `"success"` and rejects with the error
text otherwise; and for any interleaving of responses to distinct
in-flight requests, each response's settlement (determined by that frame
alone) is delivered for the request bearing its id. -/
theorem response_settles_matching_request {α : Type} (s : MpvState α)
    (msg : RespMsg α) (rid : Nat) (p : PendingEntry)
    (hmsg : msg.requestId = some rid) (hpos : 0 < rid)
    (hlook : lookupPending s.pending rid = some p) :
    handleMessage s msg =
      ({ s with pending := removePending s.pending rid,
                armedTimers := s.armedTimers.filter (· ≠ p.timer) },
       [Eff.clearTimeout p.timer, settlementOf msg rid]) ∧
    lookupPending (handleMessage s msg).1.pending rid = none ∧
    (∀ j, j ≠ rid → lookupPending (handleMessage s msg).1.pending j =
      lookupPending s.pending j) ∧
    (msg.error = some "success" → settlementOf msg rid = Eff.resolveP rid msg.data) ∧
    (msg.error ≠ some "success" →
      settlementOf msg rid = Eff.rejectP rid (errText msg.error)) ∧
    (∀ pairs : List (RespMsg α × Nat), (pairs.map (·.2)).Nodup →
      (∀ q ∈ pairs, q.1.requestId = some q.2 ∧ 0 < q.2 ∧
        (lookupPending s.pending q.2).isSome = true) →
      ∀ q ∈ pairs, settlementOf q.1 q.2 ∈ (processResponses s (pairs.map (·.1))).2) := by
  have hstep := handleMessage_match s msg rid p hmsg hpos hlook
  refine ⟨hstep, ?_, ?_, ?_, ?_, ?_⟩
  · rw [hstep]; exact lookupPending_remove_self s.pending rid
  · intro j hj
    rw [hstep]
    exact lookupPending_remove_ne s.pending rid j hj
  · intro he; rw [settlementOf, if_pos he]
  · intro he; rw [settlementOf, if_neg he]
  · exact processResponses_each_settled s

theorem response_settles_matching_request_witness :
    sampleMsg3.requestId = some 3 ∧ 0 < 3 ∧
      lookupPending sampleState.pending 3 = some ⟨100⟩ ∧
      handleMessage sampleState sampleMsg3 =
        ({ sampleState with pending := removePending sampleState.pending 3,
                            armedTimers := sampleState.armedTimers.filter (· ≠ 100) },
         [Eff.clearTimeout 100, settlementOf sampleMsg3 3]) :=
  ⟨rfl, by decide, by decide,
   (response_settles_matching_request sampleState sampleMsg3 3 ⟨100⟩ rfl (by decide)
     (by decide)).1⟩

/-! ## C10: every pending request is settled at most once -/

/-- C10: the 10-second timeout removes the entry before rejecting it with
the timeout error, leaving every other entry untouched; any response
whose `request_id` matches no pending entry — in particular one arriving
after the timeout already fired, or a repeated response for an
already-settled id — is silently ignored (no settlement, no state
change); and settling an entry via a matching response disarms its timer,
so the timeout can never also fire for it. -/
theorem pending_settled_at_most_once {α : Type} (s : MpvState α) (id : Nat)
    (e : PendingEntry) (msg : RespMsg α)
    (hmsg : msg.requestId = some id) (hpos : 0 < id)
    (hlook : lookupPending s.pending id = some e) :
    cmdTimeoutFire s id e.timer =
      ({ s with pending := removePending s.pending id,
                armedTimers := s.armedTimers.filter (· ≠ e.timer) },
       [Eff.rejectP id "mpv command timed out"]) ∧
    lookupPending (cmdTimeoutFire s id e.timer).1.pending id = none ∧
    (∀ j, j ≠ id → lookupPending (cmdTimeoutFire s id e.timer).1.pending j =
      lookupPending s.pending j) ∧
    handleMessage (cmdTimeoutFire s id e.timer).1 msg =
      ((cmdTimeoutFire s id e.timer).1, []) ∧
    (∀ (s2 : MpvState α) (m2 : RespMsg α) (r2 : Nat), m2.requestId = some r2 →
      0 < r2 → lookupPending s2.pending r2 = none → handleMessage s2 m2 = (s2, [])) ∧
    e.timer ∉ (handleMessage s msg).1.armedTimers := by
  refine ⟨rfl, ?_, ?_, ?_, ?_, ?_⟩
  · exact lookupPending_remove_self s.pending id
  · intro j hj
    exact lookupPending_remove_ne s.pending id j hj
  · exact handleMessage_unmatched _ msg id hmsg hpos
      (lookupPending_remove_self s.pending id)
  · intro s2 m2 r2 hm2 hp2 hl2
    exact handleMessage_unmatched s2 m2 r2 hm2 hp2 hl2
  · rw [handleMessage_match s msg id e hmsg hpos hlook]
    simp

theorem pending_settled_at_most_once_witness :
    sampleMsg4.requestId = some 4 ∧ 0 < 4 ∧
      lookupPending sampleState.pending 4 = some ⟨101⟩ ∧
      (cmdTimeoutFire sampleState 4 101 =
        ({ sampleState with pending := removePending sampleState.pending 4,
                            armedTimers := sampleState.armedTimers.filter (· ≠ 101) },
         [Eff.rejectP 4 "mpv command timed out"]) ∧
       handleMessage (cmdTimeoutFire sampleState 4 101).1 sampleMsg4 =
         ((cmdTimeoutFire sampleState 4 101).1, [])) :=
  ⟨rfl, by decide, by decide,
   (pending_settled_at_most_once sampleState 4 ⟨101⟩ sampleMsg4 rfl (by decide)
     (by decide)).1,
   (pending_settled_at_most_once sampleState 4 ⟨101⟩ sampleMsg4 rfl (by decide)
     (by decide)).2.2.2.1⟩

/-! ## C4: the preview cache is bounded and evicts FIFO -/

theorem mapSet_length_le {κ ν : Type} [DecidableEq κ] (m : List (κ × ν)) (k : κ)
    (v : ν) : (mapSet m k v).length ≤ m.length + 1 := by
  unfold mapSet
  by_cases hin : m.any (fun p => p.1 = k)
  · rw [if_pos hin]; simp
  · rw [if_neg hin]; simp

theorem cacheSet_length_le {κ ν : Type} [DecidableEq κ] (m : List (κ × ν)) (k : κ)
    (v : ν) (h : m.length ≤ 180) : (cacheSet m k v).length ≤ 180 := by
  unfold cacheSet
  by_cases hp : 180 < (mapSet m k v).length
  · rw [if_pos hp]
    cases hm1 : mapSet m k v with
    | nil => rw [hm1] at hp; simp at hp
    | cons h1 t =>
      have hlen1 : t.length + 1 ≤ m.length + 1 := by
        have := mapSet_length_le m k v
        rw [hm1] at this
        simpa using this
      simp only [List.head?_cons]
      unfold mapDelete
      rw [List.filter_cons, if_neg (by simp)]
      calc (t.filter (fun p => p.1 ≠ h1.1)).length
          ≤ t.length := List.length_filter_le _ t
        _ ≤ 180 := by omega
  · rw [if_neg hp]
    omega

theorem cacheSet_evicts_oldest {κ ν : Type} [DecidableEq κ] (m : List (κ × ν))
    (k : κ) (v : ν) (hlen : m.length = 180) (hnd : (m.map (·.1)).Nodup)
    (hnew : m.any (fun p => p.1 = k) = false) :
    cacheSet m k v = m.tail ++ [(k, v)] := by
  have hset : mapSet m k v = m ++ [(k, v)] := by
    unfold mapSet
    rw [if_neg (by simp [hnew])]
  cases m with
  | nil => simp at hlen
  | cons h1 t =>
    unfold cacheSet
    rw [hset]
    have hgt : 180 < ((h1 :: t) ++ [(k, v)]).length := by
      simp only [List.length_cons] at hlen
      simp only [List.length_append, List.length_cons]
      omega
    rw [if_pos hgt]
    simp only [List.cons_append, List.head?_cons]
    unfold mapDelete
    rw [List.filter_cons, if_neg (by simp)]
    rw [List.filter_eq_self.mpr]
    · rfl
    · intro a ha
      rcases List.mem_append.mp ha with hat | hak
      · simp only [List.map_cons, List.nodup_cons] at hnd
        have : a.1 ∈ t.map (·.1) := List.mem_map_of_mem (·.1) hat
        simp only [decide_eq_true_eq]
        intro he
        exact hnd.1 (he ▸ this)
      · have hk : a = (k, v) := by simpa using hak
        have h1k : ¬(h1.1 = k) := by
          have := List.any_eq_false.mp hnew h1 (List.mem_cons_self h1 t)
          simpa using this
        simp only [hk, decide_eq_true_eq]
        exact fun he => h1k he.symm

/-- C4: after every insertion the preview cache holds at most 180
entries; inserting a new key into a full (180-entry, distinct-key) cache
evicts exactly the earliest-inserted entry (the list head) — pure FIFO
order, since reads never reorder; and a capture request whose
`(mediaPath, roundedTime)` key is already cached returns the cached
payload with no engine command at all (in particular no second
screenshot-to-file). -/
theorem preview_cache_fifo_bounded {κ ν ν₂ : Type} [DecidableEq κ] [DecidableEq ν]
    [DecidableEq ν₂] (m : List (κ × ν)) (k : κ) (v : ν)
    (hlen : m.length ≤ 180) :
    (cacheSet m k v).length ≤ 180 ∧
    (m.length = 180 → (m.map (·.1)).Nodup → m.any (fun p => p.1 = k) = false →
      cacheSet m k v = m.tail ++ [(k, v)]) ∧
    (∀ (env : CaptureEnv ν₂) (mp : String) (t : ℚ) (st : PreviewState ν₂)
        (v0 : CachePayload ν₂),
      mapGet st.cache (mp, roundHalf (max 0 t)) = some v0 →
      captureThumbnail env (some mp) t st = (st, [], some v0)) := by
  refine ⟨cacheSet_length_le m k v hlen, fun h1 h2 h3 => cacheSet_evicts_oldest m k v h1 h2 h3, ?_⟩
  intro env mp t st v0 hhit
  unfold captureThumbnail
  simp only [hhit]

theorem preview_cache_fifo_bounded_witness :
    sampleCache.length ≤ 180 ∧
      ((cacheSet sampleCache ("a.mkv", 2) ⟨9001, 2⟩).length ≤ 180 ∧
        (sampleCache.length = 180 → (sampleCache.map (·.1)).Nodup →
          sampleCache.any (fun p => p.1 = ("a.mkv", 2)) = false →
          cacheSet sampleCache ("a.mkv", 2) ⟨9001, 2⟩ =
            sampleCache.tail ++ [(("a.mkv", 2), ⟨9001, 2⟩)]) ∧
        (∀ (env : CaptureEnv Nat) (mp : String) (t : ℚ) (st : PreviewState Nat)
            (v0 : CachePayload Nat),
          mapGet st.cache (mp, roundHalf (max 0 t)) = some v0 →
          captureThumbnail env (some mp) t st = (st, [], some v0))) :=
  ⟨by decide,
   preview_cache_fifo_bounded sampleCache ("a.mkv", 2) ⟨9001, 2⟩ (by decide)⟩

/-! ## C3: destroy rejects every pending request and leaves no timer -/

theorem filter_no_pending_timer (pend : List (Nat × PendingEntry)) (armed : List Nat)
    (h : ∀ t ∈ armed, ∃ q ∈ pend, q.2.timer = t) :
    armed.filter (fun t => ¬ pend.any (fun p => p.2.timer = t)) = [] := by
  rw [List.filter_eq_nil_iff]
  intro t ht
  obtain ⟨q, hq, hqt⟩ := h t ht
  simp only [decide_eq_true_eq, Decidable.not_not, List.any_eq_true]
  exact ⟨q, hq, by simp [hqt]⟩

/-- C3: `destroy()` on an instance with any number of pending requests —
whose timeout timers are exactly the armed timers, and which is ready
whenever its socket is present — empties the pending map, clears
readiness, drops the socket and the process, disarms every timer, emits
a `clearTimeout` and a `"mpv destroyed"` rejection for every pending
request, after a best-effort `quit` write and socket destruction when a
socket was present, and a process kill when a process was alive. -/
theorem destroy_rejects_all_pending {α : Type} (s : MpvState α)
    (harm : s.armedTimers = s.pending.map (fun p => p.2.timer))
    (hsr : s.socketPresent = true → s.ready = true) :
    (destroy s).1.pending = [] ∧
    (destroy s).1.ready = false ∧
    (destroy s).1.socketPresent = false ∧
    (destroy s).1.processAlive = false ∧
    (destroy s).1.armedTimers = [] ∧
    (∀ q ∈ s.pending, Eff.rejectP q.1 "mpv destroyed" ∈ (destroy s).2 ∧
      Eff.clearTimeout q.2.timer ∈ (destroy s).2) ∧
    (s.socketPresent = true → Eff.socketDestroy ∈ (destroy s).2 ∧
      Eff.write [Arg.str "quit"] (s.requestId + 1) ∈ (destroy s).2) ∧
    (s.processAlive = true → Eff.processKill ∈ (destroy s).2) := by
  by_cases hsock : s.socketPresent = true
  · have hready := hsr hsock
    have hquit : commandCall s [Arg.str "quit"] =
        ({ s with requestId := s.requestId + 1,
                  nextTimer := s.nextTimer + 1,
                  armedTimers := s.armedTimers ++ [s.nextTimer],
                  pending := s.pending ++ [(s.requestId + 1, ⟨s.nextTimer⟩)] },
         [Eff.setTimeout s.nextTimer 10000, Eff.write [Arg.str "quit"] (s.requestId + 1)],
         CmdStart.sent (s.requestId + 1) s.nextTimer) := by
      unfold commandCall commandSend
      rw [if_pos (by simp [hsock, hready]), if_pos (by simp [hsock, hready])]
    have harmAll : ∀ t ∈ s.armedTimers ++ [s.nextTimer],
        ∃ q ∈ s.pending ++ [(s.requestId + 1, (⟨s.nextTimer⟩ : PendingEntry))],
          q.2.timer = t := by
      intro t ht
      rcases List.mem_append.mp ht with hta | htn
      · rw [harm] at hta
        obtain ⟨q, hq, hqt⟩ := List.mem_map.mp hta
        exact ⟨q, List.mem_append_left _ hq, hqt⟩
      · have hteq : t = s.nextTimer := by simpa using htn
        exact ⟨(s.requestId + 1, (⟨s.nextTimer⟩ : PendingEntry)),
          List.mem_append_right _ (by simp), hteq.symm⟩
    by_cases hproc : s.processAlive = true
    · have hexp : destroy s =
          ({ s with requestId := s.requestId + 1,
                    nextTimer := s.nextTimer + 1,
                    socketPresent := false,
                    processAlive := false,
                    ready := false,
                    pending := [],
                    armedTimers := (s.armedTimers ++ [s.nextTimer]).filter
                      (fun t => ¬ (s.pending ++
                          [(s.requestId + 1, (⟨s.nextTimer⟩ : PendingEntry))]).any
                        (fun p => p.2.timer = t)) },
           ([Eff.setTimeout s.nextTimer 10000,
             Eff.write [Arg.str "quit"] (s.requestId + 1)] ++ [Eff.socketDestroy] ++
            [Eff.processKill]) ++
             (s.pending ++ [(s.requestId + 1, (⟨s.nextTimer⟩ : PendingEntry))]).flatMap
               (fun p => [Eff.clearTimeout p.2.timer, Eff.rejectP p.1 "mpv destroyed"])) := by
        unfold destroy
        rw [if_pos hsock, hquit]
        dsimp only
        rw [if_pos hproc]
        try rfl
      rw [hexp]
      refine ⟨rfl, rfl, rfl, rfl, filter_no_pending_timer _ _ harmAll, ?_,
        fun _ => ⟨by simp, by simp⟩, fun _ => by simp⟩
      intro q hq
      exact ⟨List.mem_append_right _ (List.mem_flatMap.mpr
          ⟨q, List.mem_append_left _ hq, by simp⟩),
        List.mem_append_right _ (List.mem_flatMap.mpr
          ⟨q, List.mem_append_left _ hq, by simp⟩)⟩
    · have hpf : s.processAlive = false := Bool.eq_false_iff.mpr hproc
      have hexp : destroy s =
          ({ s with requestId := s.requestId + 1,
                    nextTimer := s.nextTimer + 1,
                    socketPresent := false,
                    ready := false,
                    pending := [],
                    armedTimers := (s.armedTimers ++ [s.nextTimer]).filter
                      (fun t => ¬ (s.pending ++
                          [(s.requestId + 1, (⟨s.nextTimer⟩ : PendingEntry))]).any
                        (fun p => p.2.timer = t)) },
           ([Eff.setTimeout s.nextTimer 10000,
             Eff.write [Arg.str "quit"] (s.requestId + 1)] ++ [Eff.socketDestroy]) ++
             (s.pending ++ [(s.requestId + 1, (⟨s.nextTimer⟩ : PendingEntry))]).flatMap
               (fun p => [Eff.clearTimeout p.2.timer, Eff.rejectP p.1 "mpv destroyed"])) := by
        unfold destroy
        rw [if_pos hsock, hquit]
        dsimp only
        rw [if_neg hproc]
        try rfl
      rw [hexp]
      refine ⟨rfl, rfl, rfl, hpf, filter_no_pending_timer _ _ harmAll, ?_,
        fun _ => ⟨by simp, by simp⟩, fun hp => absurd hp hproc⟩
      intro q hq
      exact ⟨List.mem_append_right _ (List.mem_flatMap.mpr
          ⟨q, List.mem_append_left _ hq, by simp⟩),
        List.mem_append_right _ (List.mem_flatMap.mpr
          ⟨q, List.mem_append_left _ hq, by simp⟩)⟩
  · have hsf : s.socketPresent = false := Bool.eq_false_iff.mpr hsock
    have harmAll : ∀ t ∈ s.armedTimers, ∃ q ∈ s.pending, q.2.timer = t := by
      intro t ht
      rw [harm] at ht
      obtain ⟨q, hq, hqt⟩ := List.mem_map.mp ht
      exact ⟨q, hq, hqt⟩
    by_cases hproc : s.processAlive = true
    · have hexp : destroy s =
          ({ s with processAlive := false,
                    ready := false,
                    pending := [],
                    armedTimers := s.armedTimers.filter
                      (fun t => ¬ s.pending.any (fun p => p.2.timer = t)) },
           [Eff.processKill] ++ s.pending.flatMap (fun p =>
             [Eff.clearTimeout p.2.timer, Eff.rejectP p.1 "mpv destroyed"])) := by
        unfold destroy
        rw [if_neg hsock]
        dsimp only
        rw [if_pos hproc]
        try rfl
      rw [hexp]
      refine ⟨rfl, rfl, hsf, rfl, filter_no_pending_timer _ _ harmAll, ?_,
        fun hs => absurd hs hsock, fun _ => by simp⟩
      intro q hq
      exact ⟨List.mem_append_right _ (List.mem_flatMap.mpr ⟨q, hq, by simp⟩),
        List.mem_append_right _ (List.mem_flatMap.mpr ⟨q, hq, by simp⟩)⟩
    · have hpf : s.processAlive = false := Bool.eq_false_iff.mpr hproc
      have hexp : destroy s =
          ({ s with ready := false,
                    pending := [],
                    armedTimers := s.armedTimers.filter
                      (fun t => ¬ s.pending.any (fun p => p.2.timer = t)) },
           s.pending.flatMap (fun p =>
             [Eff.clearTimeout p.2.timer, Eff.rejectP p.1 "mpv destroyed"])) := by
        unfold destroy
        rw [if_neg hsock]
        dsimp only
        rw [if_neg hproc]
        try rfl
      rw [hexp]
      refine ⟨rfl, rfl, hsf, hpf, filter_no_pending_timer _ _ harmAll, ?_,
        fun hs => absurd hs hsock, fun hp => absurd hp hproc⟩
      intro q hq
      exact ⟨List.mem_flatMap.mpr ⟨q, hq, by simp⟩,
        List.mem_flatMap.mpr ⟨q, hq, by simp⟩⟩

theorem destroy_rejects_all_pending_witness :
    sampleState.armedTimers = sampleState.pending.map (fun p => p.2.timer) ∧
      (sampleState.socketPresent = true → sampleState.ready = true) ∧
      ((destroy sampleState).1.pending = [] ∧
        (destroy sampleState).1.ready = false ∧
        (destroy sampleState).1.socketPresent = false ∧
        (destroy sampleState).1.processAlive = false ∧
        (destroy sampleState).1.armedTimers = [] ∧
        (∀ q ∈ sampleState.pending,
          Eff.rejectP q.1 "mpv destroyed" ∈ (destroy sampleState).2 ∧
            Eff.clearTimeout q.2.timer ∈ (destroy sampleState).2) ∧
        (sampleState.socketPresent = true →
          Eff.socketDestroy ∈ (destroy sampleState).2 ∧
            Eff.write [Arg.str "quit"] (sampleState.requestId + 1) ∈
              (destroy sampleState).2) ∧
        (sampleState.processAlive = true →
          Eff.processKill ∈ (destroy sampleState).2)) :=
  ⟨by decide, fun _ => by decide,
   destroy_rejects_all_pending sampleState (by decide) (fun _ => by decide)⟩

/-! ## C6: the default-observation bootstrap -/

theorem commandCall_ready {α : Type} (s : MpvState α) (args : List Arg)
    (hs : s.socketPresent = true) (hr : s.ready = true) :
    commandCall s args =
      ({ s with requestId := s.requestId + 1,
                nextTimer := s.nextTimer + 1,
                armedTimers := s.armedTimers ++ [s.nextTimer],
                pending := s.pending ++ [(s.requestId + 1, ⟨s.nextTimer⟩)] },
       [Eff.setTimeout s.nextTimer 10000, Eff.write args (s.requestId + 1)],
       CmdStart.sent (s.requestId + 1) s.nextTimer) := by
  unfold commandCall commandSend
  rw [if_pos (by simp [hs, hr]), if_pos (by simp [hs, hr])]

theorem observeProperty_ready {α : Type} (s : MpvState α) (name : String)
    (hs : s.socketPresent = true) (hr : s.ready = true) :
    observeProperty s name =
      ({ s with observedProps := s.observedProps ++ [(s.nextObsId, name)],
                nextObsId := s.nextObsId + 1,
                requestId := s.requestId + 1,
                nextTimer := s.nextTimer + 1,
                armedTimers := s.armedTimers ++ [s.nextTimer],
                pending := s.pending ++ [(s.requestId + 1, ⟨s.nextTimer⟩)] },
       [Eff.setTimeout s.nextTimer 10000,
        Eff.write [Arg.str "observe_property", Arg.nat s.nextObsId, Arg.str name]
          (s.requestId + 1)]) := by
  unfold observeProperty
  dsimp only
  rw [commandCall_ready
    { s with observedProps := s.observedProps ++ [(s.nextObsId, name)],
             nextObsId := s.nextObsId + 1 }
    [Arg.str "observe_property", Arg.nat s.nextObsId, Arg.str name] hs hr]

theorem observeFold_mono {α : Type} (names : List String) (s : MpvState α)
    (effs0 : List (Eff α)) (e : Eff α) (he : e ∈ effs0) :
    e ∈ (names.foldl (fun acc name =>
      ((observeProperty acc.1 name).1, acc.2 ++ (observeProperty acc.1 name).2))
      (s, effs0)).2 := by
  induction names generalizing s effs0 with
  | nil => exact he
  | cons n ns ih =>
    exact ih ((observeProperty s n).1) (effs0 ++ (observeProperty s n).2)
      (List.mem_append_left _ he)

theorem observeFold_ready {α : Type} (names : List String) (s : MpvState α)
    (effs0 : List (Eff α)) (hs : s.socketPresent = true) (hr : s.ready = true) :
    (names.foldl (fun acc name =>
        ((observeProperty acc.1 name).1, acc.2 ++ (observeProperty acc.1 name).2))
        (s, effs0)).1.observedProps =
      s.observedProps ++ seqObs s.nextObsId names ∧
    (names.foldl (fun acc name =>
        ((observeProperty acc.1 name).1, acc.2 ++ (observeProperty acc.1 name).2))
        (s, effs0)).1.nextObsId = s.nextObsId + names.length ∧
    (∀ q ∈ seqObs s.nextObsId names, ∃ rid,
      Eff.write [Arg.str "observe_property", Arg.nat q.1, Arg.str q.2] rid ∈
        (names.foldl (fun acc name =>
          ((observeProperty acc.1 name).1, acc.2 ++ (observeProperty acc.1 name).2))
          (s, effs0)).2) := by
  induction names generalizing s effs0 with
  | nil =>
    refine ⟨by simp [seqObs], by simp, ?_⟩
    intro q hq
    exact absurd hq (by simp [seqObs])
  | cons name rest ih =>
    have hstep := observeProperty_ready s name hs hr
    have hs' : (observeProperty s name).1.socketPresent = true := by rw [hstep]; exact hs
    have hr' : (observeProperty s name).1.ready = true := by rw [hstep]; exact hr
    have hobs : (observeProperty s name).1.observedProps =
        s.observedProps ++ [(s.nextObsId, name)] := by rw [hstep]
    have hnid : (observeProperty s name).1.nextObsId = s.nextObsId + 1 := by rw [hstep]
    have hwr : Eff.write
        [Arg.str "observe_property", Arg.nat s.nextObsId, Arg.str name]
        (s.requestId + 1) ∈ (observeProperty s name).2 := by
      rw [hstep]; simp
    obtain ⟨ih1, ih2, ih3⟩ := ih ((observeProperty s name).1)
      (effs0 ++ (observeProperty s name).2) hs' hr'
    refine ⟨?_, ?_, ?_⟩
    · rw [List.foldl_cons, ih1, hobs, hnid]
      simp [seqObs]
    · rw [List.foldl_cons, ih2, hnid, List.length_cons]
      omega
    · intro q hq
      rw [List.foldl_cons]
      rcases List.mem_cons.mp (by simpa [seqObs] using hq) with hq0 | hqr
      · subst hq0
        exact ⟨s.requestId + 1, observeFold_mono rest _ _ _
          (List.mem_append_right _ hwr)⟩
      · rw [← hnid] at hqr
        exact ih3 q hqr

theorem seqObs_keys (n : Nat) (names : List String) :
    (seqObs n names).map (·.1) = (List.range names.length).map (n + ·) := by
  induction names generalizing n with
  | nil => rfl
  | cons name rest ih =>
    show n :: (seqObs (n + 1) rest).map (·.1) = _
    rw [ih, List.length_cons, List.range_succ_eq_map, List.map_cons, List.map_map]
    refine congrArg₂ List.cons (by omega) ?_
    apply List.map_congr_left
    intro a _
    simp only [Function.comp_apply]
    omega

/-- C6 counterexample: the default-observation bootstrap on a fresh ready
instance registers 21 observed properties, not 24. -/
theorem observeDefaults_registers_21_not_24 :
    (observeDefaults sampleFresh).1.observedProps.length = 21 ∧
      ¬ ((observeDefaults sampleFresh).1.observedProps.length = 24) :=
  ⟨by rfl, by decide⟩

theorem observeDefaults_expand {α : Type} (s : MpvState α)
    (hs : s.socketPresent = true) (hr : s.ready = true) :
    (observeDefaults s).1.observedProps =
      s.observedProps ++ seqObs s.nextObsId defaultObservedProps ∧
    (observeDefaults s).1.nextObsId = s.nextObsId + defaultObservedProps.length ∧
    (∀ q ∈ seqObs s.nextObsId defaultObservedProps, ∃ rid,
      Eff.write [Arg.str "observe_property", Arg.nat q.1, Arg.str q.2] rid ∈
        (observeDefaults s).2) := by
  unfold observeDefaults
  dsimp only
  rw [commandCall_ready s [Arg.str "request_log_messages", Arg.str "debug"] hs hr]
  exact observeFold_ready defaultObservedProps _ _ hs hr

/-- C6 (amended: 21 entries, not 24): on `ready` the bootstrap observes
the fixed default property set — 21 entries — assigning observation ids
sequentially (from the current `_nextObsId`, which is 1 on a fresh
instance, incrementing by 1) and issuing an `observe_property` request
for each; registrations are cumulative (existing entries are kept,
nothing is removed) and ids are never reused: registered ids stay
pairwise distinct and below the counter. -/
theorem observeDefaults_sequential {α : Type} (s : MpvState α)
    (hs : s.socketPresent = true) (hr : s.ready = true) :
    defaultObservedProps.length = 21 ∧
    (observeDefaults s).1.observedProps =
      s.observedProps ++ seqObs s.nextObsId defaultObservedProps ∧
    (observeDefaults s).1.nextObsId = s.nextObsId + 21 ∧
    (seqObs s.nextObsId defaultObservedProps).map (·.1) =
      (List.range 21).map (s.nextObsId + ·) ∧
    (∀ q ∈ seqObs s.nextObsId defaultObservedProps, ∃ rid,
      Eff.write [Arg.str "observe_property", Arg.nat q.1, Arg.str q.2] rid ∈
        (observeDefaults s).2) ∧
    ((∀ q ∈ s.observedProps, q.1 < s.nextObsId) →
      (s.observedProps.map (·.1)).Nodup →
      (((observeDefaults s).1.observedProps.map (·.1)).Nodup ∧
        ∀ q ∈ (observeDefaults s).1.observedProps,
          q.1 < (observeDefaults s).1.nextObsId)) := by
  obtain ⟨f1, f2, f3⟩ := observeDefaults_expand s hs hr
  have hkeys := seqObs_keys s.nextObsId defaultObservedProps
  refine ⟨rfl, f1, f2, hkeys, f3, ?_⟩
  intro hbound hnd
  have hseqNodup : ((seqObs s.nextObsId defaultObservedProps).map (·.1)).Nodup := by
    rw [hkeys]
    exact (List.nodup_range 21).map (fun a b hab => by omega)
  have hmemSeq : ∀ a, a ∈ (seqObs s.nextObsId defaultObservedProps).map (·.1) →
      s.nextObsId ≤ a ∧ a < s.nextObsId + 21 := by
    intro a ha
    rw [hkeys] at ha
    obtain ⟨i, hi, hia⟩ := List.mem_map.mp ha
    have : i < 21 := List.mem_range.mp hi
    omega
  constructor
  · rw [f1, List.map_append, List.nodup_append]
    refine ⟨hnd, hseqNodup, ?_⟩
    intro a hao has
    obtain ⟨q, hq, hqa⟩ := List.mem_map.mp hao
    have h1 : a < s.nextObsId := hqa ▸ hbound q hq
    have h2 := (hmemSeq a has).1
    omega
  · intro q hq
    rw [f1] at hq
    rw [f2]
    have hlen : defaultObservedProps.length = 21 := rfl
    rcases List.mem_append.mp hq with hqo | hqs
    · have := hbound q hqo
      omega
    · have := (hmemSeq q.1 (List.mem_map_of_mem (·.1) hqs)).2
      omega

theorem observeDefaults_sequential_witness :
    sampleFresh.socketPresent = true ∧ sampleFresh.ready = true ∧
      (defaultObservedProps.length = 21 ∧
        (observeDefaults sampleFresh).1.observedProps =
          sampleFresh.observedProps ++ seqObs sampleFresh.nextObsId defaultObservedProps ∧
        (observeDefaults sampleFresh).1.nextObsId = sampleFresh.nextObsId + 21 ∧
        (seqObs sampleFresh.nextObsId defaultObservedProps).map (·.1) =
          (List.range 21).map (sampleFresh.nextObsId + ·) ∧
        (∀ q ∈ seqObs sampleFresh.nextObsId defaultObservedProps, ∃ rid,
          Eff.write [Arg.str "observe_property", Arg.nat q.1, Arg.str q.2] rid ∈
            (observeDefaults sampleFresh).2) ∧
        ((∀ q ∈ sampleFresh.observedProps, q.1 < sampleFresh.nextObsId) →
          (sampleFresh.observedProps.map (·.1)).Nodup →
          (((observeDefaults sampleFresh).1.observedProps.map (·.1)).Nodup ∧
            ∀ q ∈ (observeDefaults sampleFresh).1.observedProps,
              q.1 < (observeDefaults sampleFresh).1.nextObsId))) :=
  ⟨rfl, rfl, observeDefaults_sequential sampleFresh rfl rfl⟩

/-! ## C2: byte-level chunking and the per-chunk UTF-8 decode -/

theorem utf8Start_ascii {b : Nat} (h : b < 0x80) :
    utf8Start b = Sum.inl (Char.ofNat b) := by
  unfold utf8Start
  rw [if_pos h]

theorem utf8Start_two {b : Nat} (h1 : 0xC2 ≤ b) (h2 : b < 0xE0) :
    utf8Start b = Sum.inr (b - 0xC0, 1) := by
  unfold utf8Start
  rw [if_neg (by omega), if_neg (by omega), if_pos h2]

theorem utf8Start_three {b : Nat} (h1 : 0xE0 ≤ b) (h2 : b < 0xF0) :
    utf8Start b = Sum.inr (b - 0xE0, 2) := by
  unfold utf8Start
  rw [if_neg (by omega), if_neg (by omega), if_neg (by omega), if_pos h2]

theorem utf8Start_four {b : Nat} (h1 : 0xF0 ≤ b) (h2 : b < 0xF5) :
    utf8Start b = Sum.inr (b - 0xF0, 3) := by
  unfold utf8Start
  rw [if_neg (by omega), if_neg (by omega), if_neg (by omega), if_neg (by omega),
    if_pos h2]

theorem utf8Go_start_inl {b : Nat} {c : Char} (h : utf8Start b = Sum.inl c)
    (rest : List Nat) : utf8Go 0 0 (b :: rest) = c :: utf8Go 0 0 rest := by
  have he : utf8Go 0 0 (b :: rest) =
      (match utf8Start b with
       | Sum.inl c => c :: utf8Go 0 0 rest
       | Sum.inr (acc, need) => utf8Go acc need rest) := rfl
  rw [he, h]

theorem utf8Go_start_inr {b acc need : Nat} (h : utf8Start b = Sum.inr (acc, need))
    (rest : List Nat) : utf8Go 0 0 (b :: rest) = utf8Go acc need rest := by
  have he : utf8Go 0 0 (b :: rest) =
      (match utf8Start b with
       | Sum.inl c => c :: utf8Go 0 0 rest
       | Sum.inr (acc, need) => utf8Go acc need rest) := rfl
  rw [he, h]

theorem utf8Go_cont_last (acc b : Nat) (rest : List Nat)
    (h : 0x80 ≤ b ∧ b < 0xC0) :
    utf8Go acc 1 (b :: rest) =
      Char.ofNat (acc * 64 + (b - 0x80)) :: utf8Go 0 0 rest := by
  simp only [utf8Go]
  rw [if_pos h]
  simp

theorem utf8Go_cont_step (acc n b : Nat) (rest : List Nat)
    (h : 0x80 ≤ b ∧ b < 0xC0) (hn : n ≠ 0) :
    utf8Go acc (n + 1) (b :: rest) = utf8Go (acc * 64 + (b - 0x80)) n rest := by
  simp only [utf8Go]
  rw [if_pos h, if_neg hn]

theorem utf8Go_encodeChar (c : Char) (bs : List Nat) :
    utf8Go 0 0 (utf8EncodeChar c ++ bs) = c :: utf8Go 0 0 bs := by
  have hof : Char.ofNat c.toNat = c := Char.ofNat_toNat c
  have hv : c.toNat < 1114112 := by
    have h := c.valid
    have he : c.toNat = c.val.toNat := rfl
    rcases h with h | h <;> omega
  unfold utf8EncodeChar
  by_cases h1 : c.toNat < 0x80
  · rw [if_pos h1]
    show utf8Go 0 0 (c.toNat :: bs) = _
    rw [utf8Go_start_inl (utf8Start_ascii h1), hof]
  · rw [if_neg h1]
    by_cases h2 : c.toNat < 0x800
    · rw [if_pos h2]
      show utf8Go 0 0 ((0xC0 + c.toNat / 64) :: (0x80 + c.toNat % 64) :: bs) = _
      rw [utf8Go_start_inr (utf8Start_two (by omega) (by omega)),
        utf8Go_cont_last _ _ _ ⟨by omega, by omega⟩]
      have hval : (0xC0 + c.toNat / 64 - 0xC0) * 64 + (0x80 + c.toNat % 64 - 0x80) =
          c.toNat := by omega
      rw [hval, hof]
    · rw [if_neg h2]
      by_cases h3 : c.toNat < 0x10000
      · rw [if_pos h3]
        show utf8Go 0 0 ((0xE0 + c.toNat / 4096) :: (0x80 + (c.toNat / 64) % 64) ::
          (0x80 + c.toNat % 64) :: bs) = _
        rw [utf8Go_start_inr (utf8Start_three (by omega) (by omega)),
          utf8Go_cont_step _ _ _ _ ⟨by omega, by omega⟩ (by omega),
          utf8Go_cont_last _ _ _ ⟨by omega, by omega⟩]
        have hval : ((0xE0 + c.toNat / 4096 - 0xE0) * 64 +
            (0x80 + (c.toNat / 64) % 64 - 0x80)) * 64 +
            (0x80 + c.toNat % 64 - 0x80) = c.toNat := by omega
        rw [hval, hof]
      · rw [if_neg h3]
        show utf8Go 0 0 ((0xF0 + c.toNat / 262144) ::
          (0x80 + (c.toNat / 4096) % 64) :: (0x80 + (c.toNat / 64) % 64) ::
          (0x80 + c.toNat % 64) :: bs) = _
        rw [utf8Go_start_inr (utf8Start_four (by omega) (by omega)),
          utf8Go_cont_step _ _ _ _ ⟨by omega, by omega⟩ (by omega),
          utf8Go_cont_step _ _ _ _ ⟨by omega, by omega⟩ (by omega),
          utf8Go_cont_last _ _ _ ⟨by omega, by omega⟩]
        have hval : (((0xF0 + c.toNat / 262144 - 0xF0) * 64 +
            (0x80 + (c.toNat / 4096) % 64 - 0x80)) * 64 +
            (0x80 + (c.toNat / 64) % 64 - 0x80)) * 64 +
            (0x80 + c.toNat % 64 - 0x80) = c.toNat := by omega
        rw [hval, hof]

theorem utf8Decode_encode (s : List Char) : utf8Decode (utf8Encode s) = s := by
  induction s with
  | nil => rfl
  | cons c cs ih =>
    unfold utf8Encode utf8Decode at ih ⊢
    rw [List.map_cons, List.flatten_cons, utf8Go_encodeChar, ih]

theorem utf8Encode_flatten (ss : List (List Char)) :
    (ss.map utf8Encode).flatten = utf8Encode ss.flatten := by
  induction ss with
  | nil => rfl
  | cons s rest ih =>
    rw [List.map_cons, List.flatten_cons, List.flatten_cons, ih]
    show utf8Encode s ++ utf8Encode rest.flatten = utf8Encode (s ++ rest.flatten)
    unfold utf8Encode
    rw [List.map_append, List.flatten_append]

theorem onDataBytesAll_eq {μ : Type} (parse : List Char → Option μ)
    (buf : List Char) (chunks : List (List Nat)) :
    onDataBytesAll parse buf chunks = onDataAll parse buf (chunks.map utf8Decode) := by
  unfold onDataBytesAll onDataAll onDataBytes
  rw [List.foldl_map]

/-- C2 counterexample: feeding the transport the two byte chunks of
`sampleByteChunks` — which split the two-byte UTF-8 encoding of U+00E9
at a byte offset inside the character — dispatches a different message
than feeding their concatenation as one chunk, because each chunk's
`toString('utf-8')` decode turns the severed bytes into U+FFFD
replacement characters. -/
theorem onDataBytes_chunking_not_equiv :
    ¬ (onDataBytesAll (fun l => some l) [] sampleByteChunks =
        onDataBytes (fun l => some l) [] sampleByteChunks.flatten) := by decide

/-- C2 (amended: no chunk boundary may fall inside a multi-byte
character): for every sequence of byte chunks each of which is the UTF-8
encoding of some character sequence, the transport dispatches exactly
the same messages in the same order — and retains the same trailing
incomplete line — as when the concatenation of the chunks arrives as a
single chunk, for any parse function and any newline-free starting
buffer; and a line that fails to parse is silently skipped without
affecting earlier or later lines.  (A chunk boundary inside a multi-byte
character falls outside this equivalence: the per-chunk decode yields
replacement characters, as the counterexample shows.) -/
theorem onDataBytes_chunking_equiv {μ : Type} (parse : List Char → Option μ)
    (buf : List Char) (ss : List (List Char)) (h : '\n' ∉ buf) :
    onDataBytesAll parse buf (ss.map utf8Encode) =
      onDataBytes parse buf (ss.map utf8Encode).flatten ∧
    (∀ (bad : List Char) (ls1 ls2 : List (List Char)), parse bad = none →
      dispatchLines parse (ls1 ++ bad :: ls2) =
        dispatchLines parse ls1 ++ dispatchLines parse ls2) := by
  constructor
  · rw [onDataBytesAll_eq, utf8Encode_flatten]
    have hmaps : (ss.map utf8Encode).map utf8Decode = ss := by
      rw [List.map_map]
      have hcomp : utf8Decode ∘ utf8Encode = fun s => s := by
        funext s
        exact utf8Decode_encode s
      rw [hcomp, List.map_id']
    rw [hmaps]
    unfold onDataBytes
    rw [utf8Decode_encode]
    exact (onData_chunking_equiv parse buf ss h).1
  · exact (onData_chunking_equiv parse buf ss h).2

theorem onDataBytes_chunking_equiv_witness :
    ('\n' ∉ ([] : List Char)) ∧
      (onDataBytesAll toyParse [] (sampleChunks.map utf8Encode) =
        onDataBytes toyParse [] (sampleChunks.map utf8Encode).flatten ∧
        (∀ (bad : List Char) (ls1 ls2 : List (List Char)), toyParse bad = none →
          dispatchLines toyParse (ls1 ++ bad :: ls2) =
            dispatchLines toyParse ls1 ++ dispatchLines toyParse ls2)) :=
  ⟨by decide, onDataBytes_chunking_equiv toyParse [] sampleChunks (by decide)⟩

end VideoPlayer
